import Mathlib

/-
Verification of the team-formation core of Index-Bot (src/bot.py).

Shallow embedding conventions:
* Python floats are modelled as exact rationals (ℚ); the claims under study
  are structural, not about floating-point rounding.
* Python's in-place `random.shuffle(participants)` is modelled by passing the
  post-shuffle list explicitly; theorems quantify over all permutations of
  the original pool.
* The pseudorandom choices of the annealing loop (`random.sample`,
  `random.randrange`, `random.random() < exp(-delta/T)`) are modelled by an
  oracle `ℕ → Decision`, one decision per loop iteration; the Metropolis
  coin is the Boolean outcome of the `random.random() < exp(...)` comparison.
* `random.sample(range(n), 2)` raises `ValueError` when `n < 2`; the step
  function returns an error in that case and the run is marked crashed.
* The generator `optimize_teams_sa_anim` is modelled as the finite list of
  snapshots it yields (truncated at the crash point when one occurs).
-/

/-- Mirrors `Participant.__init__` field storage (src/bot.py lines 19-39).
Numeric fields hold the stored values; see `Participant.make` for the
coercions applied at construction time. -/
structure Participant where
  name : String
  discord_id : String
  role : String
  hackathon_score : ℚ
  projects_completed : ℚ
  github_contributions : ℚ
  experience_level : ℚ
  problem_solving : ℚ
  innovation_index : ℚ
  availability : String
  wants_to_lead : Bool
  skill_areas : List String
  composite_score : ℚ
deriving DecidableEq

/-- Python `int(x)` on a numeric value: truncation toward zero. -/
def pyIntTrunc (q : ℚ) : ℤ :=
  if 0 ≤ q then ⌊q⌋ else ⌈q⌉

/-- `Participant.__init__` (src/bot.py lines 20-39): `float(...)` is applied to
hackathon_score, experience_level, problem_solving and innovation_index
(identity on the rational model), while `int(...)` is applied to
projects_completed and github_contributions; composite_score starts at 0.0. -/
def Participant.make (name discord_id role : String)
    (hackathon_score projects_completed github_contributions
     experience_level problem_solving innovation_index : ℚ)
    (availability : String) (wants_to_lead : Bool)
    (skill_areas : List String) : Participant :=
  { name := name
    discord_id := discord_id
    role := role
    hackathon_score := hackathon_score
    projects_completed := (pyIntTrunc projects_completed : ℚ)
    github_contributions := (pyIntTrunc github_contributions : ℚ)
    experience_level := experience_level
    problem_solving := problem_solving
    innovation_index := innovation_index
    availability := availability
    wants_to_lead := wants_to_lead
    skill_areas := skill_areas
    composite_score := 0 }

/-- The six weighted metrics of `CompositeScoreCalculator` (keys of the
weights dict, src/bot.py lines 48-56). -/
inductive Metric where
  | hackathon_score
  | projects_completed
  | github_contributions
  | experience_level
  | problem_solving
  | innovation_index
deriving DecidableEq

/-- `getattr(p, metric)` for the six metric names. -/
def metricValue (p : Participant) : Metric → ℚ
  | .hackathon_score => p.hackathon_score
  | .projects_completed => p.projects_completed
  | .github_contributions => p.github_contributions
  | .experience_level => p.experience_level
  | .problem_solving => p.problem_solving
  | .innovation_index => p.innovation_index

/-- Python `min(values)` on a non-empty list (the `[]` case is a totalization
artifact: Python raises there and the callers never pass an empty pool). -/
def listMin : List ℚ → ℚ
  | [] => 0
  | x :: xs => xs.foldl min x

/-- Python `max(values)` on a non-empty list. -/
def listMax : List ℚ → ℚ
  | [] => 0
  | x :: xs => xs.foldl max x

/-- `CompositeScoreCalculator.compute_scaling_factors` (src/bot.py lines
62-67): per-metric pool minimum and maximum. -/
def CompositeScoreCalculator.compute_scaling_factors
    (participants : List Participant) (m : Metric) : ℚ × ℚ :=
  (listMin (participants.map (fun p => metricValue p m)),
   listMax (participants.map (fun p => metricValue p m)))

/-- `CompositeScoreCalculator.normalize` (src/bot.py lines 69-74). -/
def CompositeScoreCalculator.normalize (scaling : Metric → ℚ × ℚ)
    (value : ℚ) (m : Metric) : ℚ :=
  let min_val := (scaling m).1
  let max_val := (scaling m).2
  if max_val = min_val then 1/2
  else (value - min_val) / (max_val - min_val)

/-- `CompositeScoreCalculator.compute_composite_score` (src/bot.py lines
76-81): `score += weight * norm_value ** exponent` over the weights dict. -/
def CompositeScoreCalculator.compute_composite_score (scaling : Metric → ℚ × ℚ)
    (weights : List (Metric × ℚ)) (exponent : ℕ) (p : Participant) : ℚ :=
  (weights.map (fun mw =>
    mw.2 * (CompositeScoreCalculator.normalize scaling (metricValue p mw.1) mw.1) ^ exponent)).sum

/-- `CompositeScoreCalculator.calculate_all_scores` (src/bot.py lines 83-86):
writes the composite score onto each participant. -/
def CompositeScoreCalculator.calculate_all_scores (participants : List Participant)
    (weights : List (Metric × ℚ)) (exponent : ℕ) : List Participant :=
  let scaling := CompositeScoreCalculator.compute_scaling_factors participants
  participants.map (fun p =>
    { p with composite_score :=
        CompositeScoreCalculator.compute_composite_score scaling weights exponent p })

/-- The slicing comprehension of `initialize_teams` (src/bot.py line 95):
`[participants[i:i + team_size] for i in range(0, len(participants), team_size)]`.
The `0, _ :: _` case is a totalization artifact: `range` with step 0 raises in
Python and every claim assumes a positive team size. -/
def sliceChunks : ℕ → List Participant → List (List Participant)
  | _, [] => []
  | 0, _ :: _ => []
  | s+1, x :: xs => (x :: xs).take (s+1) :: sliceChunks (s+1) ((x :: xs).drop (s+1))
termination_by _ l => l.length
decreasing_by simp; omega

/-- `initialize_teams` (src/bot.py lines 92-96).  `random.shuffle` mutates the
caller's list in place; `participants` here is that list as it stands after
the shuffle, and the theorems relate it to the original pool by permutation. -/
def initialize_teams (participants : List Participant) (team_size : ℕ) :
    List (List Participant) :=
  sliceChunks team_size participants

/-- `np.mean([p.composite_score for p in team])` (src/bot.py line 102). -/
def teamMean (team : List Participant) : ℚ :=
  (team.map (fun p => p.composite_score)).sum / (team.length : ℚ)

/-- `overall_team_avg_variance` (src/bot.py lines 98-103): population variance
(`np.var`) of the per-team means, skipping empty teams. -/
def overall_team_avg_variance (teams : List (List Participant)) : ℚ :=
  let team_avgs := (teams.filter (fun t => !t.isEmpty)).map teamMean
  let n : ℚ := (team_avgs.length : ℚ)
  let mean := team_avgs.sum / n
  (team_avgs.map (fun x => (x - mean) ^ 2)).sum / n

/-- `role_counts.get(key, 0)` on the association-list model of a Python dict. -/
def dictGet (d : List (String × ℕ)) (k : String) (dflt : ℕ) : ℕ :=
  match d.find? (fun kv => kv.1 = k) with
  | some kv => kv.2
  | none => dflt

/-- `d[key] = value` on the association-list model of a Python dict. -/
def dictSet (d : List (String × ℕ)) (k : String) (v : ℕ) : List (String × ℕ) :=
  if d.any (fun kv => kv.1 = k) then
    d.map (fun kv => if kv.1 = k then (k, v) else kv)
  else d ++ [(k, v)]

/-- The tallying loop of `meets_role_requirements` (src/bot.py lines 109-111):
`role_counts[p.role] = role_counts.get(p.role, 0) + 1` over the team. -/
def roleCountsOf (team : List Participant) : List (String × ℕ) :=
  team.foldl (fun acc p => dictSet acc p.role (dictGet acc p.role 0 + 1)) []

/-- `meets_role_requirements` (src/bot.py lines 105-117). -/
def meets_role_requirements (team : List Participant)
    (role_requirements : List (String × ℕ)) (leader_required : Bool)
    (full_team_size : ℕ) : Bool :=
  if team.length < full_team_size then true
  else
    let role_counts := roleCountsOf team
    if role_requirements.any (fun rc => dictGet role_counts rc.1 0 < rc.2) then false
    else if leader_required && !(team.any (fun p => p.wants_to_lead)) then false
    else true

/-- One iteration's worth of pseudorandom draws inside the annealing loop:
`i, j` from `random.sample(range(len(current_teams)), 2)`, `idx1, idx2` from
`random.randrange`, and `coin` the outcome of
`random.random() < math.exp(-delta / T)`. -/
structure Decision where
  i : ℕ
  j : ℕ
  idx1 : ℕ
  idx2 : ℕ
  coin : Bool

/-- The mutable locals of `optimize_teams_sa_anim` (src/bot.py lines 120-125). -/
structure SAState where
  current_teams : List (List Participant)
  current_obj : ℚ
  best_state : List (List Participant)
  best_obj : ℚ
  T : ℚ
  iteration : ℕ
deriving DecidableEq

/-- One tuple yielded by `optimize_teams_sa_anim`:
`(teams, obj, iteration, i, j, idx1, idx2, complete)`. -/
structure Snapshot where
  teams : List (List Participant)
  obj : ℚ
  iteration : ℕ
  ti : Option ℕ
  tj : Option ℕ
  mi : Option ℕ
  mj : Option ℕ
  complete : Bool
deriving DecidableEq

/-- A placeholder participant used only to totalize out-of-range list reads;
the theorems' validity hypotheses keep every read in range. -/
def dummyParticipant : Participant :=
  Participant.make "" "" "" 0 0 0 0 0 0 "" false []

/-- One pass of the `while` body of `optimize_teams_sa_anim` (src/bot.py lines
129-157).  Returns the updated state and the snapshot yielded during the pass
(`none` on the empty-team `continue`, which yields nothing and does not cool).
Errors when fewer than two teams exist, where `random.sample` raises. -/
def saStep (role_requirements : List (String × ℕ)) (leader_required : Bool)
    (full_team_size : ℕ) (cooling_rate : ℚ) (st : SAState) (d : Decision) :
    Except Unit (SAState × Option Snapshot) :=
  let iter := st.iteration + 1
  if st.current_teams.length < 2 then
    .error ()
  else
    let team1 := st.current_teams.getD d.i []
    let team2 := st.current_teams.getD d.j []
    if team1.isEmpty || team2.isEmpty then
      .ok ({ st with iteration := iter }, none)
    else
      let new_team1 := team1.set d.idx1 (team2.getD d.idx2 dummyParticipant)
      let new_team2 := team2.set d.idx2 (team1.getD d.idx1 dummyParticipant)
      if meets_role_requirements new_team1 role_requirements leader_required full_team_size &&
         meets_role_requirements new_team2 role_requirements leader_required full_team_size then
        let new_teams := (st.current_teams.set d.i new_team1).set d.j new_team2
        let new_obj := overall_team_avg_variance new_teams
        let delta := new_obj - st.current_obj
        if delta < 0 ∨ d.coin then
          .ok ({ current_teams := new_teams
                 current_obj := new_obj
                 best_state := if new_obj < st.best_obj then new_teams else st.best_state
                 best_obj := if new_obj < st.best_obj then new_obj else st.best_obj
                 T := st.T * cooling_rate
                 iteration := iter },
               some ⟨new_teams, new_obj, iter, some d.i, some d.j, some d.idx1, some d.idx2, false⟩)
        else
          .ok ({ st with iteration := iter, T := st.T * cooling_rate },
               some ⟨st.current_teams, st.current_obj, iter, none, none, none, none, false⟩)
      else
        .ok ({ st with iteration := iter, T := st.T * cooling_rate },
             some ⟨st.current_teams, st.current_obj, iter, none, none, none, none, false⟩)

/-- The `while T > 1e-4 and iteration < max_iter` loop (src/bot.py lines
129-157), with fuel.  Returns the yielded snapshots, the final state, and
whether the loop crashed (`random.sample` raised).  `optimize_teams_sa_anim`
supplies `max_iter` as fuel, which is enough because `iteration` increases by
one on every pass. -/
def saLoopAux (role_requirements : List (String × ℕ)) (leader_required : Bool)
    (full_team_size : ℕ) (max_iter : ℕ) (cooling_rate : ℚ)
    (oracle : ℕ → Decision) :
    SAState → ℕ → List Snapshot × SAState × Bool
  | st, 0 => ([], st, false)
  | st, fuel+1 =>
    if 1/10000 < st.T ∧ st.iteration < max_iter then
      match saStep role_requirements leader_required full_team_size cooling_rate
          st (oracle st.iteration) with
      | .error _ => ([], st, true)
      | .ok (st', osnap) =>
        let rest := saLoopAux role_requirements leader_required full_team_size
          max_iter cooling_rate oracle st' fuel
        (osnap.toList ++ rest.1, rest.2)
    else ([], st, false)

/-- The full yielded output of one generator run. -/
structure RunResult where
  snaps : List Snapshot
  final : SAState
  crashed : Bool
deriving DecidableEq

/-- `optimize_teams_sa_anim` (src/bot.py lines 119-158) as the list of
snapshots it yields: the initial snapshot, one snapshot per non-no-op
iteration, and (when no crash occurs) the final best-state snapshot with the
completion flag set. -/
def optimize_teams_sa_anim (teams : List (List Participant))
    (role_requirements : List (String × ℕ)) (leader_required : Bool)
    (full_team_size : ℕ) (max_iter : ℕ) (initial_temp cooling_rate : ℚ)
    (oracle : ℕ → Decision) : RunResult :=
  let obj0 := overall_team_avg_variance teams
  let st0 : SAState :=
    { current_teams := teams, current_obj := obj0
      best_state := teams, best_obj := obj0
      T := initial_temp, iteration := 0 }
  let first : Snapshot := ⟨teams, obj0, 0, none, none, none, none, false⟩
  let r := saLoopAux role_requirements leader_required full_team_size
    max_iter cooling_rate oracle st0 max_iter
  if r.2.2 then
    { snaps := first :: r.1, final := r.2.1, crashed := true }
  else
    { snaps := first :: r.1 ++
        [⟨r.2.1.best_state, r.2.1.best_obj, r.2.1.iteration, none, none, none, none, true⟩]
      final := r.2.1
      crashed := false }

/-- The two failure modes of `form_teams`: the explicit configuration
`ValueError` (src/bot.py lines 161-162) and the `ValueError` escaping from
`random.sample` inside the optimizer. -/
inductive FormErr where
  | config
  | sample
deriving DecidableEq

/-- `form_teams` (src/bot.py lines 160-167).  As with `initialize_teams`,
`participants` is the caller's list as mutated by the in-place shuffle. -/
def form_teams (participants : List Participant) (team_size : ℕ)
    (role_requirements : List (String × ℕ)) (leader_required : Bool)
    (max_iter : ℕ) (initial_temp cooling_rate : ℚ) (oracle : ℕ → Decision) :
    Except FormErr (List (List Participant)) :=
  if team_size < (role_requirements.map (fun rc => rc.2)).sum then
    .error .config
  else
    let teams := initialize_teams participants team_size
    let r := optimize_teams_sa_anim teams role_requirements leader_required
      team_size max_iter initial_temp cooling_rate oracle
    if r.crashed then .error .sample
    else .ok ((r.snaps.getLastD ⟨teams, 0, 0, none, none, none, none, false⟩).teams)

/-- Validity of one oracle decision against the (invariant) team-size shape of
the assignment: `random.sample(range(n), 2)` yields two distinct in-range
indices, and `random.randrange(len(team))` yields an in-range member index
whenever it is reached (both teams non-empty).  With fewer than two teams the
step errors before reading the decision, so anything is valid. -/
def ValidDecision (d : Decision) (shape : List ℕ) : Prop :=
  shape.length < 2 ∨
    (d.i < shape.length ∧ d.j < shape.length ∧ d.i ≠ d.j ∧
      (shape.getD d.i 0 ≠ 0 → shape.getD d.j 0 ≠ 0 →
        d.idx1 < shape.getD d.i 0 ∧ d.idx2 < shape.getD d.j 0))

/-! ### Dictionary/tally lemmas -/

/-- The number of members of `team` whose role label is `r`. -/
def roleCount (team : List Participant) (r : String) : ℕ :=
  (team.filter (fun p => p.role = r)).length

lemma find?_map_set_self (d : List (String × ℕ)) (k : String) (v : ℕ)
    (h : d.any (fun kv => kv.1 = k) = true) :
    (d.map (fun kv => if kv.1 = k then (k, v) else kv)).find?
      (fun kv => kv.1 = k) = some (k, v) := by
  induction d with
  | nil => simp at h
  | cons a d ih =>
    by_cases hk : a.1 = k
    · simp [List.find?, hk]
    · simp only [List.any_cons, Bool.or_eq_true, decide_eq_true_eq] at h
      rcases h with h | h
      · exact absurd h hk
      · simp [List.find?, hk, ih h]

lemma find?_map_set_ne (d : List (String × ℕ)) (k k' : String) (v : ℕ)
    (h : k' ≠ k) :
    (d.map (fun kv => if kv.1 = k then (k, v) else kv)).find?
      (fun kv => kv.1 = k') = d.find? (fun kv => kv.1 = k') := by
  induction d with
  | nil => rfl
  | cons a d ih =>
    simp only [List.map_cons]
    by_cases hk : a.1 = k
    · rw [if_pos hk]
      rw [List.find?_cons_of_neg _ (by simp [Ne.symm h]),
          List.find?_cons_of_neg _ (by simp [hk, Ne.symm h])]
      exact ih
    · rw [if_neg hk]
      by_cases hk' : a.1 = k'
      · rw [List.find?_cons_of_pos _ (by simp [hk']),
            List.find?_cons_of_pos _ (by simp [hk'])]
      · rw [List.find?_cons_of_neg _ (by simp [hk']),
            List.find?_cons_of_neg _ (by simp [hk'])]
        exact ih

lemma dictGet_dictSet_self (d : List (String × ℕ)) (k : String) (v : ℕ) :
    dictGet (dictSet d k v) k 0 = v := by
  unfold dictSet dictGet
  by_cases h : d.any (fun kv => kv.1 = k) = true
  · simp only [h, if_true, find?_map_set_self d k v h]
  · simp only [h]
    rw [if_neg (by simp [h])]
    rw [List.find?_append]
    have hnone : d.find? (fun kv => kv.1 = k) = none := by
      rw [List.find?_eq_none]
      intro kv hkv
      simp only [decide_eq_true_eq]
      intro he
      exact h (List.any_eq_true.mpr ⟨kv, hkv, by simp [he]⟩)
    simp [hnone, List.find?]

lemma dictGet_dictSet_ne (d : List (String × ℕ)) (k k' : String) (v : ℕ)
    (h : k' ≠ k) : dictGet (dictSet d k v) k' 0 = dictGet d k' 0 := by
  unfold dictSet dictGet
  by_cases ha : d.any (fun kv => kv.1 = k) = true
  · simp only [ha, if_true, find?_map_set_ne d k k' v h]
  · simp only [ha]
    rw [if_neg (by simp [ha])]
    rw [List.find?_append]
    cases hf : d.find? (fun kv => kv.1 = k') with
    | some kv => simp
    | none => simp [List.find?, Ne.symm h]

lemma dictGet_roleCountsOf_aux (team : List Participant)
    (acc : List (String × ℕ)) (r : String) :
    dictGet (team.foldl
      (fun acc p => dictSet acc p.role (dictGet acc p.role 0 + 1)) acc) r 0 =
      dictGet acc r 0 + roleCount team r := by
  induction team generalizing acc with
  | nil => simp [roleCount]
  | cons p team ih =>
    simp only [List.foldl_cons]
    rw [ih]
    by_cases hr : p.role = r
    · rw [hr, dictGet_dictSet_self]
      simp only [roleCount, List.filter_cons, hr]
      simp
      omega
    · rw [dictGet_dictSet_ne _ _ _ _ (fun he => hr he.symm)]
      simp [roleCount, List.filter_cons, hr]

/-- The dict tally built by `meets_role_requirements` counts role labels. -/
lemma dictGet_roleCountsOf (team : List Participant) (r : String) :
    dictGet (roleCountsOf team) r 0 = roleCount team r := by
  have h := dictGet_roleCountsOf_aux team [] r
  simpa [roleCountsOf, dictGet] using h

lemma meets_role_requirements_eq_of_full (team : List Participant)
    (role_requirements : List (String × ℕ)) (leader_required : Bool)
    (full_team_size : ℕ) (h : ¬ team.length < full_team_size) :
    meets_role_requirements team role_requirements leader_required full_team_size =
      (!(role_requirements.any fun rc =>
          decide (dictGet (roleCountsOf team) rc.1 0 < rc.2)) &&
       !(leader_required && !(team.any fun p => p.wants_to_lead))) := by
  unfold meets_role_requirements
  rw [if_neg h]
  cases hc : (role_requirements.any fun rc =>
      decide (dictGet (roleCountsOf team) rc.1 0 < rc.2)) <;>
    cases hl : (leader_required && !(team.any fun p => p.wants_to_lead)) <;>
    simp [hc, hl]

/-- C7: the constraint validator `meets_role_requirements` returns true for
every team strictly smaller than the full team size; for a team at full size
it returns true exactly when every role named in the requirements has at
least its minimum count of members and, when leadership is required, some
member is willing to lead.  Roles not named are unconstrained (the condition
only quantifies over the requirement list) and the embedding is a pure
function, matching the claim's absence of side effects. -/
theorem C7_validator_characterization
    (team : List Participant) (role_requirements : List (String × ℕ))
    (leader_required : Bool) (full_team_size : ℕ) :
    (team.length < full_team_size →
      meets_role_requirements team role_requirements leader_required full_team_size = true) ∧
    (team.length = full_team_size →
      (meets_role_requirements team role_requirements leader_required full_team_size = true ↔
        (∀ rc ∈ role_requirements, rc.2 ≤ roleCount team rc.1) ∧
        (leader_required = true → ∃ p ∈ team, p.wants_to_lead = true))) := by
  constructor
  · intro h
    unfold meets_role_requirements
    simp [h]
  · intro h
    rw [meets_role_requirements_eq_of_full team role_requirements leader_required
      full_team_size (by omega)]
    simp only [Bool.and_eq_true, Bool.not_eq_true', List.any_eq_false,
      List.any_eq_true, decide_eq_true_eq, dictGet_roleCountsOf, Not, Nat.not_lt,
      Bool.and_eq_false_iff, Bool.not_eq_false']
    constructor
    · rintro ⟨h1, h2⟩
      exact ⟨fun rc hrc => Nat.not_lt.mp (h1 rc hrc),
        fun hl => h2.resolve_left (by simp [hl])⟩
    · rintro ⟨h1, h2⟩
      refine ⟨fun rc hrc hlt => ?_, ?_⟩
      · have := h1 rc hrc
        omega
      · cases leader_required with
        | false => exact Or.inl rfl
        | true => exact Or.inr (h2 rfl)

/-- C7 witness: the spec's worked example — requirements AI Engineer ≥ 1 and
Design ≥ 1, leadership required, team size 2; a mixed team with a willing
leader is legal, and the characterization instantiates to it. -/
theorem C7_validator_characterization_witness :
    ([Participant.make "a" "1" "AI Engineer" 0 0 0 0 0 0 "" true [],
      Participant.make "b" "2" "Design" 0 0 0 0 0 0 "" false []].length < 2 →
      meets_role_requirements
        [Participant.make "a" "1" "AI Engineer" 0 0 0 0 0 0 "" true [],
         Participant.make "b" "2" "Design" 0 0 0 0 0 0 "" false []]
        [("AI Engineer", 1), ("Design", 1)] true 2 = true) ∧
    ([Participant.make "a" "1" "AI Engineer" 0 0 0 0 0 0 "" true [],
      Participant.make "b" "2" "Design" 0 0 0 0 0 0 "" false []].length = 2 →
      (meets_role_requirements
        [Participant.make "a" "1" "AI Engineer" 0 0 0 0 0 0 "" true [],
         Participant.make "b" "2" "Design" 0 0 0 0 0 0 "" false []]
        [("AI Engineer", 1), ("Design", 1)] true 2 = true ↔
        (∀ rc ∈ [("AI Engineer", 1), ("Design", 1)],
          rc.2 ≤ roleCount
            [Participant.make "a" "1" "AI Engineer" 0 0 0 0 0 0 "" true [],
             Participant.make "b" "2" "Design" 0 0 0 0 0 0 "" false []] rc.1) ∧
        (true = true → ∃ p ∈
            [Participant.make "a" "1" "AI Engineer" 0 0 0 0 0 0 "" true [],
             Participant.make "b" "2" "Design" 0 0 0 0 0 0 "" false []],
          p.wants_to_lead = true))) :=
  C7_validator_characterization _ _ _ _

/-- C9 counterexample: the claim says all six numeric metrics are stored as
floating-point after coercion, but `Participant.__init__` applies `int(...)`
to projects_completed (and github_contributions): input 3.7 is stored as 3,
not as the floating-point value 3.7. -/
theorem C9_float_storage_cex :
    (Participant.make "a" "1" "r" (37/10) (37/10) (37/10) (37/10) (37/10) (37/10)
      "" false []).projects_completed = 3 ∧
    ¬ (Participant.make "a" "1" "r" (37/10) (37/10) (37/10) (37/10) (37/10) (37/10)
      "" false []).projects_completed = 37/10 ∧
    (Participant.make "a" "1" "r" (37/10) (37/10) (37/10) (37/10) (37/10) (37/10)
      "" false []).hackathon_score = 37/10 := by
  have ht : pyIntTrunc (37/10) = 3 := by norm_num [pyIntTrunc]
  refine ⟨?_, ?_, rfl⟩
  · show ((pyIntTrunc (37/10) : ℤ) : ℚ) = 3
    rw [ht]
    norm_num
  · show ¬ ((pyIntTrunc (37/10) : ℤ) : ℚ) = 37/10
    rw [ht]
    norm_num

/-- C9 amended: constructing a Participant stores hackathon_score,
experience_level, problem_solving and innovation_index unchanged (the
`float(...)` coercion), while projects_completed and github_contributions are
coerced with `int(...)` and stored as integers (truncation toward zero);
the composite score starts at 0. -/
theorem C9_metric_storage_amended (name discord_id role : String)
    (hs pc gc el ps ii : ℚ) (availability : String) (lead : Bool)
    (skills : List String) :
    (Participant.make name discord_id role hs pc gc el ps ii availability lead
      skills).hackathon_score = hs ∧
    (Participant.make name discord_id role hs pc gc el ps ii availability lead
      skills).experience_level = el ∧
    (Participant.make name discord_id role hs pc gc el ps ii availability lead
      skills).problem_solving = ps ∧
    (Participant.make name discord_id role hs pc gc el ps ii availability lead
      skills).innovation_index = ii ∧
    (Participant.make name discord_id role hs pc gc el ps ii availability lead
      skills).projects_completed = (pyIntTrunc pc : ℚ) ∧
    (Participant.make name discord_id role hs pc gc el ps ii availability lead
      skills).github_contributions = (pyIntTrunc gc : ℚ) ∧
    (∃ z : ℤ, (Participant.make name discord_id role hs pc gc el ps ii
      availability lead skills).projects_completed = (z : ℚ)) ∧
    (∃ z : ℤ, (Participant.make name discord_id role hs pc gc el ps ii
      availability lead skills).github_contributions = (z : ℚ)) ∧
    (Participant.make name discord_id role hs pc gc el ps ii availability lead
      skills).composite_score = 0 :=
  ⟨rfl, rfl, rfl, rfl, rfl, rfl, ⟨pyIntTrunc pc, rfl⟩, ⟨pyIntTrunc gc, rfl⟩, rfl⟩

/-- C5: `form_teams` fails with the configuration error exactly when the
target team size is smaller than the sum of the required role minimums; the
check is the first statement of the routine, before the initial partition is
built or any optimizer step runs, and when the team size is large enough no
configuration error is ever raised. -/
theorem C5_config_error_iff (participants : List Participant) (team_size : ℕ)
    (role_requirements : List (String × ℕ)) (leader_required : Bool)
    (max_iter : ℕ) (initial_temp cooling_rate : ℚ) (oracle : ℕ → Decision) :
    form_teams participants team_size role_requirements leader_required
        max_iter initial_temp cooling_rate oracle = .error .config ↔
      team_size < (role_requirements.map (fun rc => rc.2)).sum := by
  unfold form_teams
  by_cases h : team_size < (role_requirements.map (fun rc => rc.2)).sum
  · rw [if_pos h]
    simp [h]
  · rw [if_neg h]
    refine iff_of_false ?_ h
    intro hc
    dsimp only at hc
    split at hc
    · exact FormErr.noConfusion (Except.error.inj hc)
    · exact Except.noConfusion hc

/-! ### Pool minimum / maximum lemmas -/

lemma foldl_min_le_init (xs : List ℚ) (a : ℚ) : xs.foldl min a ≤ a := by
  induction xs generalizing a with
  | nil => simp
  | cons x xs ih => exact le_trans (ih (min a x)) (min_le_left a x)

lemma foldl_min_le_mem (xs : List ℚ) (a : ℚ) : ∀ x ∈ xs, xs.foldl min a ≤ x := by
  induction xs generalizing a with
  | nil => simp
  | cons y xs ih =>
    intro x hx
    rcases List.mem_cons.mp hx with h | h
    · subst h
      exact le_trans (foldl_min_le_init xs (min a x)) (min_le_right a x)
    · exact ih (min a y) x h

lemma foldl_min_mem (xs : List ℚ) (a : ℚ) : xs.foldl min a ∈ a :: xs := by
  induction xs generalizing a with
  | nil => simp
  | cons x xs ih =>
    simp only [List.foldl_cons]
    rcases List.mem_cons.mp (ih (min a x)) with h | h
    · rcases min_choice a x with hm | hm
      · rw [h, hm]
        exact List.mem_cons_self _ _
      · rw [h, hm]
        exact List.mem_cons_of_mem _ (List.mem_cons_self _ _)
    · exact List.mem_cons_of_mem _ (List.mem_cons_of_mem _ h)

lemma init_le_foldl_max (xs : List ℚ) (a : ℚ) : a ≤ xs.foldl max a := by
  induction xs generalizing a with
  | nil => simp
  | cons x xs ih => exact le_trans (le_max_left a x) (ih (max a x))

lemma mem_le_foldl_max (xs : List ℚ) (a : ℚ) : ∀ x ∈ xs, x ≤ xs.foldl max a := by
  induction xs generalizing a with
  | nil => simp
  | cons y xs ih =>
    intro x hx
    rcases List.mem_cons.mp hx with h | h
    · subst h
      exact le_trans (le_max_right a x) (init_le_foldl_max xs (max a x))
    · exact ih (max a y) x h

lemma foldl_max_mem (xs : List ℚ) (a : ℚ) : xs.foldl max a ∈ a :: xs := by
  induction xs generalizing a with
  | nil => simp
  | cons x xs ih =>
    simp only [List.foldl_cons]
    rcases List.mem_cons.mp (ih (max a x)) with h | h
    · rcases max_choice a x with hm | hm
      · rw [h, hm]
        exact List.mem_cons_self _ _
      · rw [h, hm]
        exact List.mem_cons_of_mem _ (List.mem_cons_self _ _)
    · exact List.mem_cons_of_mem _ (List.mem_cons_of_mem _ h)

/-- `min(values)` is a member of the list. -/
lemma listMin_mem (l : List ℚ) (h : l ≠ []) : listMin l ∈ l := by
  cases l with
  | nil => exact absurd rfl h
  | cons x xs => exact foldl_min_mem xs x

/-- `min(values)` is a lower bound of the list. -/
lemma listMin_le (l : List ℚ) : ∀ x ∈ l, listMin l ≤ x := by
  cases l with
  | nil => simp
  | cons x xs =>
    intro y hy
    rcases List.mem_cons.mp hy with h | h
    · subst h
      exact foldl_min_le_init xs y
    · exact foldl_min_le_mem xs x y h

/-- `max(values)` is a member of the list. -/
lemma listMax_mem (l : List ℚ) (h : l ≠ []) : listMax l ∈ l := by
  cases l with
  | nil => exact absurd rfl h
  | cons x xs => exact foldl_max_mem xs x

/-- `max(values)` is an upper bound of the list. -/
lemma le_listMax (l : List ℚ) : ∀ x ∈ l, x ≤ listMax l := by
  cases l with
  | nil => simp
  | cons x xs =>
    intro y hy
    rcases List.mem_cons.mp hy with h | h
    · subst h
      exact init_le_foldl_max xs y
    · exact mem_le_foldl_max xs x y h

/-- The default metric weights of `CompositeScoreCalculator.__init__`
(src/bot.py lines 48-56). -/
def default_weights : List (Metric × ℚ) :=
  [(.hackathon_score, 25/100), (.projects_completed, 2/10),
   (.github_contributions, 15/100), (.experience_level, 1/10),
   (.problem_solving, 15/100), (.innovation_index, 15/100)]

/-- C6: for a non-empty pool, the scaling factors of each metric are the pool
minimum and maximum of that metric's values; normalization maps a value `v`
to `(v - min) / (max - min)`, or to exactly 1/2 when the pool minimum equals
the pool maximum; and the composite score written onto each participant is
the sum over weighted metrics of `weight * normalized ^ exponent`. -/
theorem C6_normalization_and_composite (participants : List Participant)
    (weights : List (Metric × ℚ)) (exponent : ℕ) (h : participants ≠ []) :
    (∀ m : Metric,
      (CompositeScoreCalculator.compute_scaling_factors participants m).1
          ∈ participants.map (fun p => metricValue p m) ∧
      (∀ v ∈ participants.map (fun p => metricValue p m),
        (CompositeScoreCalculator.compute_scaling_factors participants m).1 ≤ v) ∧
      (CompositeScoreCalculator.compute_scaling_factors participants m).2
          ∈ participants.map (fun p => metricValue p m) ∧
      (∀ v ∈ participants.map (fun p => metricValue p m),
        v ≤ (CompositeScoreCalculator.compute_scaling_factors participants m).2)) ∧
    (∀ (v : ℚ) (m : Metric),
      CompositeScoreCalculator.normalize
          (CompositeScoreCalculator.compute_scaling_factors participants) v m =
        if (CompositeScoreCalculator.compute_scaling_factors participants m).2 =
            (CompositeScoreCalculator.compute_scaling_factors participants m).1 then 1/2
        else (v - (CompositeScoreCalculator.compute_scaling_factors participants m).1) /
          ((CompositeScoreCalculator.compute_scaling_factors participants m).2 -
           (CompositeScoreCalculator.compute_scaling_factors participants m).1)) ∧
    ((CompositeScoreCalculator.calculate_all_scores participants weights exponent).map
        (fun p => p.composite_score) =
      participants.map (fun p => (weights.map (fun mw =>
        mw.2 * (CompositeScoreCalculator.normalize
          (CompositeScoreCalculator.compute_scaling_factors participants)
          (metricValue p mw.1) mw.1) ^ exponent)).sum)) := by
  have hmap : ∀ m : Metric, participants.map (fun p => metricValue p m) ≠ [] := by
    intro m hm
    exact h (List.map_eq_nil_iff.mp hm)
  refine ⟨?_, ?_, ?_⟩
  · intro m
    exact ⟨listMin_mem _ (hmap m), listMin_le _,
           listMax_mem _ (hmap m), le_listMax _⟩
  · intro v m
    rfl
  · simp only [CompositeScoreCalculator.calculate_all_scores, List.map_map]
    rfl

/-- Three participants with hackathon scores 10, 50 and 90 (the spec's
normalization example). -/
def scoreDemoPool : List Participant :=
  [Participant.make "a" "1" "X" 10 0 0 0 0 0 "" false [],
   Participant.make "b" "2" "X" 50 0 0 0 0 0 "" false [],
   Participant.make "c" "3" "X" 90 0 0 0 0 0 "" false []]

/-- C6 witness: the characterization instantiated at the spec's example pool
(hackathon scores 10, 50, 90) with the default weights and exponent 3; in
particular, the pool's hackathon minimum 10 and maximum 90 normalize 50 to
(50 - 10)/(90 - 10) = 1/2. -/
theorem C6_normalization_and_composite_witness :
    ((∀ m : Metric,
      (CompositeScoreCalculator.compute_scaling_factors scoreDemoPool m).1
          ∈ scoreDemoPool.map (fun p => metricValue p m) ∧
      (∀ v ∈ scoreDemoPool.map (fun p => metricValue p m),
        (CompositeScoreCalculator.compute_scaling_factors scoreDemoPool m).1 ≤ v) ∧
      (CompositeScoreCalculator.compute_scaling_factors scoreDemoPool m).2
          ∈ scoreDemoPool.map (fun p => metricValue p m) ∧
      (∀ v ∈ scoreDemoPool.map (fun p => metricValue p m),
        v ≤ (CompositeScoreCalculator.compute_scaling_factors scoreDemoPool m).2)) ∧
    (∀ (v : ℚ) (m : Metric),
      CompositeScoreCalculator.normalize
          (CompositeScoreCalculator.compute_scaling_factors scoreDemoPool) v m =
        if (CompositeScoreCalculator.compute_scaling_factors scoreDemoPool m).2 =
            (CompositeScoreCalculator.compute_scaling_factors scoreDemoPool m).1 then 1/2
        else (v - (CompositeScoreCalculator.compute_scaling_factors scoreDemoPool m).1) /
          ((CompositeScoreCalculator.compute_scaling_factors scoreDemoPool m).2 -
           (CompositeScoreCalculator.compute_scaling_factors scoreDemoPool m).1)) ∧
    ((CompositeScoreCalculator.calculate_all_scores scoreDemoPool default_weights 3).map
        (fun p => p.composite_score) =
      scoreDemoPool.map (fun p => (default_weights.map (fun mw =>
        mw.2 * (CompositeScoreCalculator.normalize
          (CompositeScoreCalculator.compute_scaling_factors scoreDemoPool)
          (metricValue p mw.1) mw.1) ^ 3)).sum))) ∧
    CompositeScoreCalculator.normalize
      (CompositeScoreCalculator.compute_scaling_factors scoreDemoPool)
      50 .hackathon_score = 1/2 :=
  ⟨C6_normalization_and_composite scoreDemoPool default_weights 3 (by simp [scoreDemoPool]),
   by norm_num [CompositeScoreCalculator.normalize,
     CompositeScoreCalculator.compute_scaling_factors, scoreDemoPool, listMin,
     listMax, Participant.make, metricValue]⟩

/-! ### Chunking lemmas for `initialize_teams` -/

lemma sliceChunks_eq_nil_iff (s : ℕ) (l : List Participant) :
    sliceChunks (s+1) l = [] ↔ l = [] := by
  cases l with
  | nil => simp [sliceChunks]
  | cons x xs => simp [sliceChunks]

lemma sliceChunks_flatten_aux (s : ℕ) (n : ℕ) :
    ∀ (l : List Participant), l.length ≤ n →
      (sliceChunks (s+1) l).flatten = l := by
  induction n with
  | zero =>
    intro l hl
    rw [List.length_eq_zero.mp (Nat.le_zero.mp hl)]
    simp [sliceChunks]
  | succ n ih =>
    intro l hl
    cases l with
    | nil => simp [sliceChunks]
    | cons x xs =>
      simp only [sliceChunks, List.flatten_cons]
      rw [ih ((x :: xs).drop (s+1)) (by simp only [List.length_drop, List.length_cons] at hl ⊢; omega)]
      exact List.take_append_drop (s+1) (x :: xs)

/-- The chunks of `initialize_teams` concatenate back to the (shuffled) pool. -/
lemma sliceChunks_flatten (s : ℕ) (l : List Participant) :
    (sliceChunks (s+1) l).flatten = l :=
  sliceChunks_flatten_aux s l.length l le_rfl

lemma sliceChunks_length_aux (s : ℕ) (n : ℕ) :
    ∀ (l : List Participant), l.length ≤ n →
      (sliceChunks (s+1) l).length = (l.length + s) / (s+1) := by
  induction n with
  | zero =>
    intro l hl
    rw [List.length_eq_zero.mp (Nat.le_zero.mp hl)]
    simp [sliceChunks, Nat.div_eq_of_lt]
  | succ n ih =>
    intro l hl
    cases l with
    | nil => simp [sliceChunks, Nat.div_eq_of_lt]
    | cons x xs =>
      simp only [sliceChunks, List.length_cons]
      rw [ih ((x :: xs).drop (s+1)) (by simp only [List.length_drop, List.length_cons] at hl ⊢; omega)]
      simp only [List.length_drop, List.length_cons]
      by_cases hle : xs.length + 1 ≤ s + 1
      · have h1 : xs.length + 1 - (s+1) = 0 := by omega
        rw [h1]
        have h2 : xs.length + 1 + s = xs.length + (s+1) := by omega
        rw [h2, Nat.add_div_right _ (by omega), Nat.div_eq_of_lt (by omega),
          Nat.div_eq_of_lt (by omega)]
      · have h2 : xs.length + 1 + s = (xs.length + 1 - (s+1) + s) + (s+1) := by
          omega
        rw [h2, Nat.add_div_right _ (by omega)]

/-- `initialize_teams` produces `ceil(N / S)` chunks. -/
lemma sliceChunks_length (s : ℕ) (l : List Participant) :
    (sliceChunks (s+1) l).length = (l.length + s) / (s+1) :=
  sliceChunks_length_aux s l.length l le_rfl

lemma sliceChunks_dropLast_aux (s : ℕ) (n : ℕ) :
    ∀ (l : List Participant), l.length ≤ n →
      ∀ t ∈ (sliceChunks (s+1) l).dropLast, t.length = s + 1 := by
  induction n with
  | zero =>
    intro l hl
    rw [List.length_eq_zero.mp (Nat.le_zero.mp hl)]
    simp [sliceChunks]
  | succ n ih =>
    intro l hl
    cases l with
    | nil => simp [sliceChunks]
    | cons x xs =>
      simp only [sliceChunks]
      by_cases hrest : (x :: xs).drop (s+1) = []
      · rw [hrest]
        simp [sliceChunks]
      · rw [List.dropLast_cons_of_ne_nil
          (by rw [Ne, sliceChunks_eq_nil_iff]; exact hrest)]
        intro t ht
        rcases List.mem_cons.mp ht with h | h
        · subst h
          have : s + 1 ≤ xs.length + 1 := by
            by_contra hc
            exact hrest (List.drop_eq_nil_of_le (by simp; omega))
          simp only [List.length_take, List.length_cons]
          omega
        · exact ih ((x :: xs).drop (s+1))
            (by simp only [List.length_drop, List.length_cons] at hl ⊢; omega) t h

/-- Every chunk except possibly the last has exactly the target size. -/
lemma sliceChunks_dropLast (s : ℕ) (l : List Participant) :
    ∀ t ∈ (sliceChunks (s+1) l).dropLast, t.length = s + 1 :=
  sliceChunks_dropLast_aux s l.length l le_rfl

lemma sliceChunks_getLast_aux (s : ℕ) (n : ℕ) :
    ∀ (l : List Participant), l.length ≤ n →
      ∀ (h : sliceChunks (s+1) l ≠ []),
        ((sliceChunks (s+1) l).getLast h).length =
          (if l.length % (s+1) = 0 then s + 1 else l.length % (s+1)) := by
  induction n with
  | zero =>
    intro l hl
    rw [List.length_eq_zero.mp (Nat.le_zero.mp hl)]
    intro h
    exact absurd ((sliceChunks_eq_nil_iff s []).mpr rfl) h
  | succ n ih =>
    intro l hl
    cases l with
    | nil =>
      intro h
      exact absurd ((sliceChunks_eq_nil_iff s []).mpr rfl) h
    | cons x xs =>
      intro h
      by_cases hrest : (x :: xs).drop (s+1) = []
      · have hlen : xs.length + 1 ≤ s + 1 := by
          have := List.drop_eq_nil_iff.mp hrest
          simpa using this
        have hchunks : sliceChunks (s+1) (x :: xs) = [(x :: xs).take (s+1)] := by
          simp only [sliceChunks]
          rw [hrest]
          simp [sliceChunks]
        have hgl : (sliceChunks (s+1) (x :: xs)).getLast h = (x :: xs).take (s+1) := by
          rw [List.getLast_congr h (by simp) hchunks]
          exact List.getLast_singleton _ _
        rw [hgl, List.take_of_length_le (by simpa using hlen)]
        have hx : (x :: xs).length = xs.length + 1 := rfl
        rw [hx]
        by_cases heq : xs.length + 1 = s + 1
        · rw [heq, Nat.mod_self, if_pos rfl]
        · rw [Nat.mod_eq_of_lt (by omega), if_neg (by omega)]
      · have hne : sliceChunks (s+1) ((x :: xs).drop (s+1)) ≠ [] := by
          rw [Ne, sliceChunks_eq_nil_iff]
          exact hrest
        have hstep : sliceChunks (s+1) (x :: xs) =
            (x :: xs).take (s+1) :: sliceChunks (s+1) ((x :: xs).drop (s+1)) := by
          simp only [sliceChunks]
        have hgl : (sliceChunks (s+1) (x :: xs)).getLast h =
            (sliceChunks (s+1) ((x :: xs).drop (s+1))).getLast hne := by
          rw [List.getLast_congr h (by simp [hstep]) hstep]
          exact List.getLast_cons hne
        rw [hgl]
        have hlen : s + 1 < xs.length + 1 := by
          by_contra hc
          exact hrest (List.drop_eq_nil_of_le (by simp; omega))
        rw [ih ((x :: xs).drop (s+1))
          (by simp only [List.length_drop, List.length_cons] at hl ⊢; omega) hne]
        have hmod : ((x :: xs).drop (s+1)).length % (s+1) =
            (xs.length + 1) % (s+1) := by
          simp only [List.length_drop, List.length_cons]
          have h2 : xs.length + 1 = (xs.length + 1 - (s+1)) + (s+1) := by omega
          rw [h2, Nat.add_mod_right]
          congr 1
          omega
        rw [hmod]
        simp only [List.length_cons]

/-- The last chunk holds the remainder: `N mod S` members when that is
nonzero, a full `S` otherwise. -/
lemma sliceChunks_getLast (s : ℕ) (l : List Participant)
    (h : sliceChunks (s+1) l ≠ []) :
    ((sliceChunks (s+1) l).getLast h).length =
      (if l.length % (s+1) = 0 then s + 1 else l.length % (s+1)) :=
  sliceChunks_getLast_aux s l.length l le_rfl h

/-- C8: for a pool of N participants and target size S > 0, `initialize_teams`
slices a permutation of the pool into contiguous chunks: it yields
`ceil(N/S) = (N + S - 1) / S` teams whose concatenation is exactly the
shuffled pool, every team except possibly the last has size S, and the last
team has size `N mod S` when that is nonzero and S otherwise — the undersized
remainder is kept as its own team, never merged. -/
theorem C8_initialize_teams_chunking (pool shuffled : List Participant)
    (team_size : ℕ) (hS : 0 < team_size) (hperm : pool.Perm shuffled) :
    (initialize_teams shuffled team_size).length =
      (pool.length + team_size - 1) / team_size ∧
    (initialize_teams shuffled team_size).flatten = shuffled ∧
    (∀ t ∈ (initialize_teams shuffled team_size).dropLast, t.length = team_size) ∧
    (∀ h : initialize_teams shuffled team_size ≠ [],
      ((initialize_teams shuffled team_size).getLast h).length =
        (if pool.length % team_size = 0 then team_size
         else pool.length % team_size)) := by
  obtain ⟨s, rfl⟩ : ∃ s, team_size = s + 1 :=
    ⟨team_size - 1, by omega⟩
  have hlen : pool.length = shuffled.length := hperm.length_eq
  unfold initialize_teams
  refine ⟨?_, sliceChunks_flatten s shuffled, sliceChunks_dropLast s shuffled, ?_⟩
  · rw [sliceChunks_length, hlen]
    have h1 : shuffled.length + (s+1) - 1 = shuffled.length + s := by omega
    rw [h1]
  · intro h
    rw [sliceChunks_getLast s shuffled h, hlen]

/-- C8 witness: the spec's example — 5 participants, team size 2 — yields
3 teams of sizes 2, 2 and 1. -/
theorem C8_initialize_teams_chunking_witness :
    (0 < 2 ∧
      (scoreDemoPool ++ [Participant.make "d" "4" "X" 0 0 0 0 0 0 "" false [],
        Participant.make "e" "5" "X" 0 0 0 0 0 0 "" false []]).Perm
      (scoreDemoPool ++ [Participant.make "d" "4" "X" 0 0 0 0 0 0 "" false [],
        Participant.make "e" "5" "X" 0 0 0 0 0 0 "" false []])) ∧
    (initialize_teams
      (scoreDemoPool ++ [Participant.make "d" "4" "X" 0 0 0 0 0 0 "" false [],
        Participant.make "e" "5" "X" 0 0 0 0 0 0 "" false []]) 2).length = 3 ∧
    (∀ t ∈ (initialize_teams
      (scoreDemoPool ++ [Participant.make "d" "4" "X" 0 0 0 0 0 0 "" false [],
        Participant.make "e" "5" "X" 0 0 0 0 0 0 "" false []]) 2).dropLast,
      t.length = 2) ∧
    (∀ h : initialize_teams
      (scoreDemoPool ++ [Participant.make "d" "4" "X" 0 0 0 0 0 0 "" false [],
        Participant.make "e" "5" "X" 0 0 0 0 0 0 "" false []]) 2 ≠ [],
      ((initialize_teams
        (scoreDemoPool ++ [Participant.make "d" "4" "X" 0 0 0 0 0 0 "" false [],
          Participant.make "e" "5" "X" 0 0 0 0 0 0 "" false []]) 2).getLast h).length = 1) := by
  have h := C8_initialize_teams_chunking
    (scoreDemoPool ++ [Participant.make "d" "4" "X" 0 0 0 0 0 0 "" false [],
      Participant.make "e" "5" "X" 0 0 0 0 0 0 "" false []])
    (scoreDemoPool ++ [Participant.make "d" "4" "X" 0 0 0 0 0 0 "" false [],
      Participant.make "e" "5" "X" 0 0 0 0 0 0 "" false []])
    2 (by omega) (List.Perm.refl _)
  refine ⟨⟨by omega, List.Perm.refl _⟩, ?_, h.2.2.1, ?_⟩
  · rw [h.1]
    rfl
  · intro hne
    rw [h.2.2.2 hne]
    rfl

/-- C10: `random.shuffle` inside `initialize_teams` (reached from
`form_teams`) mutates the caller's participant list in place — modelled here
by explicit state passing: after the call the caller's list is `shuffled`, an
arbitrary permutation of the original pool.  The teams are contiguous slices
of exactly that mutated list (their concatenation is the mutated list, which
still holds the same participants as the pool), and the mutated order is in
general different from the original, as the final existential shows. -/
theorem C10_shuffle_frame_effect (pool shuffled : List Participant)
    (team_size : ℕ) (hS : 0 < team_size) (hperm : pool.Perm shuffled) :
    (initialize_teams shuffled team_size).flatten = shuffled ∧
    (initialize_teams shuffled team_size).flatten.Perm pool ∧
    ∃ (pool' mutated : List Participant),
      pool'.Perm mutated ∧ mutated ≠ pool' ∧
      (initialize_teams mutated team_size).flatten = mutated := by
  obtain ⟨s, rfl⟩ : ∃ s, team_size = s + 1 := ⟨team_size - 1, by omega⟩
  unfold initialize_teams
  refine ⟨sliceChunks_flatten s shuffled, ?_, ?_⟩
  · rw [sliceChunks_flatten s shuffled]
    exact hperm.symm
  · refine ⟨[Participant.make "a" "1" "X" 0 0 0 0 0 0 "" false [],
       Participant.make "b" "2" "X" 0 0 0 0 0 0 "" false []],
      [Participant.make "b" "2" "X" 0 0 0 0 0 0 "" false [],
       Participant.make "a" "1" "X" 0 0 0 0 0 0 "" false []],
      List.Perm.swap _ _ _, ?_, sliceChunks_flatten s _⟩
    intro h
    have hname : (Participant.make "b" "2" "X" 0 0 0 0 0 0 "" false []).name =
        (Participant.make "a" "1" "X" 0 0 0 0 0 0 "" false []).name := by
      rw [List.cons.injEq] at h
      rw [h.1]
    simp [Participant.make] at hname

/-- C10 witness: instantiated at a two-element pool with the order-reversing
shuffle and team size 1. -/
theorem C10_shuffle_frame_effect_witness :
    (0 < 1 ∧
      ([Participant.make "a" "1" "X" 0 0 0 0 0 0 "" false [],
        Participant.make "b" "2" "X" 0 0 0 0 0 0 "" false []].Perm
       [Participant.make "b" "2" "X" 0 0 0 0 0 0 "" false [],
        Participant.make "a" "1" "X" 0 0 0 0 0 0 "" false []])) ∧
    (initialize_teams
      [Participant.make "b" "2" "X" 0 0 0 0 0 0 "" false [],
       Participant.make "a" "1" "X" 0 0 0 0 0 0 "" false []] 1).flatten =
      [Participant.make "b" "2" "X" 0 0 0 0 0 0 "" false [],
       Participant.make "a" "1" "X" 0 0 0 0 0 0 "" false []] ∧
    (initialize_teams
      [Participant.make "b" "2" "X" 0 0 0 0 0 0 "" false [],
       Participant.make "a" "1" "X" 0 0 0 0 0 0 "" false []] 1).flatten.Perm
      [Participant.make "a" "1" "X" 0 0 0 0 0 0 "" false [],
       Participant.make "b" "2" "X" 0 0 0 0 0 0 "" false []] := by
  have h := C10_shuffle_frame_effect
    [Participant.make "a" "1" "X" 0 0 0 0 0 0 "" false [],
     Participant.make "b" "2" "X" 0 0 0 0 0 0 "" false []]
    [Participant.make "b" "2" "X" 0 0 0 0 0 0 "" false [],
     Participant.make "a" "1" "X" 0 0 0 0 0 0 "" false []]
    1 (by omega) (List.Perm.swap _ _ _)
  exact ⟨⟨by omega, List.Perm.swap _ _ _⟩, h.1, h.2.1⟩

/-! ### Count-preservation lemmas for the swap move -/

lemma set_getElem_eq_self {α : Type} (l : List α) (i : ℕ) (h : i < l.length) :
    l.set i l[i] = l := by
  rw [List.set_eq_take_cons_drop _ h, ← List.drop_eq_getElem_cons h,
    List.take_append_drop]

lemma set_getD_eq_self {α : Type} (l : List α) (i : ℕ) (dflt : α)
    (h : i < l.length) : l.set i (l.getD i dflt) = l := by
  rw [List.getD_eq_getElem _ _ h]
  exact set_getElem_eq_self l i h

lemma count_set (l : List Participant) (k : ℕ) (hk : k < l.length)
    (x a : Participant) :
    (l.set k x).count a + (if l.getD k dummyParticipant = a then 1 else 0) =
      l.count a + (if x = a then 1 else 0) := by
  rw [List.getD_eq_getElem l dummyParticipant hk]
  rw [List.set_eq_take_cons_drop x hk]
  conv_rhs => rw [← List.take_append_drop k l, List.drop_eq_getElem_cons hk]
  rw [List.count_append, List.count_append, List.count_cons, List.count_cons]
  simp only [beq_iff_eq]
  omega

lemma count_flatten_set (ts : List (List Participant)) (k : ℕ)
    (hk : k < ts.length) (t : List Participant) (a : Participant) :
    ((ts.set k t).flatten).count a + (ts.getD k []).count a =
      ts.flatten.count a + t.count a := by
  have hget : ts.getD k [] = ts[k] := List.getD_eq_getElem ts [] hk
  rw [hget, List.set_eq_take_cons_drop t hk]
  conv_rhs => rw [← List.take_append_drop k ts, List.drop_eq_getElem_cons hk]
  rw [List.flatten_append, List.flatten_cons, List.flatten_append,
    List.flatten_cons]
  simp only [List.count_append]
  omega

/-- The committed swap of the annealing loop preserves the multiset of
participants: exchanging member `idx1` of team `i` with member `idx2` of
team `j` leaves every participant's total count unchanged. -/
lemma count_flatten_swap (ts : List (List Participant)) (i j idx1 idx2 : ℕ)
    (hij : i ≠ j) (hi : i < ts.length) (hj : j < ts.length)
    (h1 : idx1 < (ts.getD i []).length) (h2 : idx2 < (ts.getD j []).length)
    (a : Participant) :
    (((ts.set i ((ts.getD i []).set idx1
          ((ts.getD j []).getD idx2 dummyParticipant))).set j
        ((ts.getD j []).set idx2
          ((ts.getD i []).getD idx1 dummyParticipant))).flatten).count a =
      ts.flatten.count a := by
  set t1 := ts.getD i [] with ht1
  set t2 := ts.getD j [] with ht2
  set new1 := t1.set idx1 (t2.getD idx2 dummyParticipant) with hn1
  set new2 := t2.set idx2 (t1.getD idx1 dummyParticipant) with hn2
  have e2 := count_flatten_set ts i hi new1 a
  rw [← ht1] at e2
  have hkey : (ts.set i new1).getD j [] = t2 := by
    have hj' : j < (ts.set i new1).length := by
      rw [List.length_set]
      exact hj
    rw [List.getD_eq_getElem _ [] hj', List.getElem_set_ne hij hj', ht2,
      List.getD_eq_getElem ts [] hj]
  have e1 := count_flatten_set (ts.set i new1) j
    (by rw [List.length_set]; exact hj) new2 a
  rw [hkey] at e1
  have e3 := count_set t1 idx1 h1 (t2.getD idx2 dummyParticipant) a
  have e4 := count_set t2 idx2 h2 (t1.getD idx1 dummyParticipant) a
  rw [← hn1] at e3
  rw [← hn2] at e4
  omega

/-! ### Branch analysis of one optimizer step -/

/-- Complete case analysis of a successful `saStep`: the iteration is counted
in every branch; with an empty selected team nothing else changes and no
snapshot is yielded; otherwise the temperature is cooled exactly once, a
non-final snapshot for this iteration is yielded showing the (possibly
updated) current assignment, and the assignment either stays unchanged or
becomes the two-member swap, committed only when both candidate teams pass
the validator, with the best state either kept or set to the new current. -/
lemma saStep_spec (rr : List (String × ℕ)) (lr : Bool) (fts : ℕ) (cr : ℚ)
    (st : SAState) (d : Decision) (st' : SAState) (osnap : Option Snapshot)
    (h : saStep rr lr fts cr st d = .ok (st', osnap)) :
    2 ≤ st.current_teams.length ∧
    st'.iteration = st.iteration + 1 ∧
    ((((st.current_teams.getD d.i []).isEmpty ||
        (st.current_teams.getD d.j []).isEmpty) = true ∧
      st'.current_teams = st.current_teams ∧
      st'.best_state = st.best_state ∧ st'.T = st.T ∧ osnap = none) ∨
     (((st.current_teams.getD d.i []).isEmpty ||
        (st.current_teams.getD d.j []).isEmpty) = false ∧
      st'.T = st.T * cr ∧
      (∃ snap, osnap = some snap ∧ snap.iteration = st.iteration + 1 ∧
        snap.complete = false ∧ snap.teams = st'.current_teams) ∧
      ((st'.current_teams = st.current_teams ∧ st'.best_state = st.best_state) ∨
       (st'.current_teams =
          (st.current_teams.set d.i
            ((st.current_teams.getD d.i []).set d.idx1
              ((st.current_teams.getD d.j []).getD d.idx2 dummyParticipant))).set d.j
            ((st.current_teams.getD d.j []).set d.idx2
              ((st.current_teams.getD d.i []).getD d.idx1 dummyParticipant)) ∧
        meets_role_requirements
          ((st.current_teams.getD d.i []).set d.idx1
            ((st.current_teams.getD d.j []).getD d.idx2 dummyParticipant)) rr lr fts = true ∧
        meets_role_requirements
          ((st.current_teams.getD d.j []).set d.idx2
            ((st.current_teams.getD d.i []).getD d.idx1 dummyParticipant)) rr lr fts = true ∧
        (st'.best_state = st.best_state ∨
         st'.best_state = st'.current_teams))))) := by
  unfold saStep at h
  split at h
  · exact absurd h (by simp)
  · rename_i hlen
    dsimp only at h
    refine ⟨by omega, ?_⟩
    split at h
    · rename_i hemp
      obtain ⟨rfl, rfl⟩ := h
      exact ⟨rfl, Or.inl ⟨hemp, rfl, rfl, rfl, rfl⟩⟩
    · rename_i hemp
      rw [Bool.not_eq_true] at hemp
      split at h
      · rename_i hmeets
        rw [Bool.and_eq_true] at hmeets
        split at h
        · obtain ⟨rfl, rfl⟩ := h
          refine ⟨rfl, Or.inr ⟨hemp, rfl, ⟨_, rfl, rfl, rfl, rfl⟩,
            Or.inr ⟨rfl, hmeets.1, hmeets.2, ?_⟩⟩⟩
          dsimp only
          split
          · exact Or.inr rfl
          · exact Or.inl rfl
        · obtain ⟨rfl, rfl⟩ := h
          exact ⟨rfl, Or.inr ⟨hemp, rfl, ⟨_, rfl, rfl, rfl, rfl⟩,
            Or.inl ⟨rfl, rfl⟩⟩⟩
      · obtain ⟨rfl, rfl⟩ := h
        exact ⟨rfl, Or.inr ⟨hemp, rfl, ⟨_, rfl, rfl, rfl, rfl⟩,
          Or.inl ⟨rfl, rfl⟩⟩⟩

lemma getD_map_length (ts : List (List Participant)) (i : ℕ) :
    (ts.map List.length).getD i 0 = (ts.getD i []).length := by
  by_cases hi : i < ts.length
  · rw [List.getD_eq_getElem _ _ (by simpa using hi), List.getD_eq_getElem _ _ hi,
      List.getElem_map]
  · rw [List.getD_eq_default _ _ (by simpa using Nat.le_of_not_lt hi),
      List.getD_eq_default _ _ (Nat.le_of_not_lt hi)]
    rfl

/-- A valid decision, read off against the team-size shape. -/
lemma ValidDecision.dest (d : Decision) (ts : List (List Participant))
    (hv : ValidDecision d (ts.map List.length)) (hlen : 2 ≤ ts.length)
    (hne1 : (ts.getD d.i []).isEmpty = false)
    (hne2 : (ts.getD d.j []).isEmpty = false) :
    d.i < ts.length ∧ d.j < ts.length ∧ d.i ≠ d.j ∧
      d.idx1 < (ts.getD d.i []).length ∧ d.idx2 < (ts.getD d.j []).length := by
  rcases hv with hv | ⟨hi, hj, hij, hidx⟩
  · rw [List.length_map] at hv
    omega
  · rw [List.length_map] at hi hj
    rw [getD_map_length, getD_map_length] at hidx
    have h1 : (ts.getD d.i []).length ≠ 0 := by
      intro hc
      rw [List.isEmpty_eq_false] at hne1
      exact hne1 (List.length_eq_zero.mp hc)
    have h2 : (ts.getD d.j []).length ≠ 0 := by
      intro hc
      rw [List.isEmpty_eq_false] at hne2
      exact hne2 (List.length_eq_zero.mp hc)
    exact ⟨hi, hj, hij, (hidx h1 h2).1, (hidx h1 h2).2⟩

/-- A successful step never changes the list of team sizes. -/
lemma saStep_shape (rr : List (String × ℕ)) (lr : Bool) (fts : ℕ) (cr : ℚ)
    (st : SAState) (d : Decision) (st' : SAState) (osnap : Option Snapshot)
    (h : saStep rr lr fts cr st d = .ok (st', osnap))
    (hv : ValidDecision d (st.current_teams.map List.length)) :
    st'.current_teams.map List.length = st.current_teams.map List.length := by
  obtain ⟨hlen, _, hcase⟩ := saStep_spec rr lr fts cr st d st' osnap h
  rcases hcase with ⟨_, hteams, _⟩ | ⟨hemp, _, _, hcase⟩
  · rw [hteams]
  · rcases hcase with ⟨hteams, _⟩ | ⟨hteams, _⟩
    · rw [hteams]
    · have hB : ((st.current_teams.getD d.i []).isEmpty ||
          (st.current_teams.getD d.j []).isEmpty) = false := hemp
      rw [Bool.or_eq_false_iff] at hB
      obtain ⟨hi, hj, hij, h1, h2⟩ := ValidDecision.dest d st.current_teams hv
        hlen hB.1 hB.2
      rw [hteams, List.map_set, List.map_set]
      have hl1 : ((st.current_teams.getD d.i []).set d.idx1
          ((st.current_teams.getD d.j []).getD d.idx2 dummyParticipant)).length =
          (st.current_teams.map List.length).getD d.i 0 := by
        rw [List.length_set, getD_map_length]
      have hl2 : ((st.current_teams.getD d.j []).set d.idx2
          ((st.current_teams.getD d.i []).getD d.idx1 dummyParticipant)).length =
          (st.current_teams.map List.length).getD d.j 0 := by
        rw [List.length_set, getD_map_length]
      rw [hl1]
      rw [set_getD_eq_self _ _ _ (by simpa using hi)]
      rw [hl2]
      rw [set_getD_eq_self _ _ _ (by simpa using hj)]

/-- A successful step preserves the participant multiset of the current
assignment, of the best assignment, and of every yielded snapshot. -/
lemma saStep_perm (pool : List Participant) (rr : List (String × ℕ))
    (lr : Bool) (fts : ℕ) (cr : ℚ) (st : SAState) (d : Decision)
    (st' : SAState) (osnap : Option Snapshot)
    (h : saStep rr lr fts cr st d = .ok (st', osnap))
    (hv : ValidDecision d (st.current_teams.map List.length))
    (hcur : st.current_teams.flatten.Perm pool)
    (hbest : st.best_state.flatten.Perm pool) :
    st'.current_teams.flatten.Perm pool ∧ st'.best_state.flatten.Perm pool ∧
      ∀ snap ∈ osnap.toList, snap.teams.flatten.Perm pool := by
  obtain ⟨hlen, _, hcase⟩ := saStep_spec rr lr fts cr st d st' osnap h
  rcases hcase with ⟨_, hteams, hbest', _, hnone⟩ | ⟨hemp, _, hsnap, hcase⟩
  · rw [hteams, hbest', hnone]
    exact ⟨hcur, hbest, by simp⟩
  · have hcur' : st'.current_teams.flatten.Perm pool := by
      rcases hcase with ⟨hteams, _⟩ | ⟨hteams, _⟩
      · rw [hteams]
        exact hcur
      · have hB : ((st.current_teams.getD d.i []).isEmpty ||
            (st.current_teams.getD d.j []).isEmpty) = false := hemp
        rw [Bool.or_eq_false_iff] at hB
        obtain ⟨hi, hj, hij, h1, h2⟩ := ValidDecision.dest d st.current_teams hv
          hlen hB.1 hB.2
        rw [hteams]
        refine List.Perm.trans ?_ hcur
        rw [List.perm_iff_count]
        intro a
        exact count_flatten_swap st.current_teams d.i d.j d.idx1 d.idx2
          hij hi hj h1 h2 a
    have hbest'' : st'.best_state.flatten.Perm pool := by
      rcases hcase with ⟨_, hb⟩ | ⟨_, _, _, hb⟩
      · rw [hb]
        exact hbest
      · rcases hb with hb | hb
        · rw [hb]
          exact hbest
        · rw [hb]
          exact hcur'
    refine ⟨hcur', hbest'', ?_⟩
    obtain ⟨snap, hs, _, _, hteams⟩ := hsnap
    rw [hs]
    intro s hsm
    rcases List.mem_cons.mp hsm with rfl | hfalse
    · rw [hteams]
      exact hcur'
    · exact absurd hfalse (by simp)

/-- The whole annealing loop preserves the participant multiset in every
yielded snapshot, in the final current assignment and in the final best
assignment. -/
lemma saLoopAux_perm (pool : List Participant) (rr : List (String × ℕ))
    (lr : Bool) (fts max_iter : ℕ) (cr : ℚ) (oracle : ℕ → Decision) :
    ∀ (fuel : ℕ) (st : SAState),
      (∀ k, ValidDecision (oracle k) (st.current_teams.map List.length)) →
      st.current_teams.flatten.Perm pool →
      st.best_state.flatten.Perm pool →
      (∀ snap ∈ (saLoopAux rr lr fts max_iter cr oracle st fuel).1,
        snap.teams.flatten.Perm pool) ∧
      (saLoopAux rr lr fts max_iter cr oracle st fuel).2.1.current_teams.flatten.Perm
        pool ∧
      (saLoopAux rr lr fts max_iter cr oracle st fuel).2.1.best_state.flatten.Perm
        pool := by
  intro fuel
  induction fuel with
  | zero =>
    intro st hv hcur hbest
    simp only [saLoopAux]
    exact ⟨by simp, hcur, hbest⟩
  | succ fuel ih =>
    intro st hv hcur hbest
    simp only [saLoopAux]
    split
    · cases hstep : saStep rr lr fts cr st (oracle st.iteration) with
      | error e =>
        dsimp only
        exact ⟨by simp, hcur, hbest⟩
      | ok pr =>
        obtain ⟨st', osnap⟩ := pr
        have hsp := saStep_perm pool rr lr fts cr st (oracle st.iteration)
          st' osnap hstep (hv st.iteration) hcur hbest
        have hsh := saStep_shape rr lr fts cr st (oracle st.iteration)
          st' osnap hstep (hv st.iteration)
        have hv' : ∀ k, ValidDecision (oracle k)
            (st'.current_teams.map List.length) := by
          rw [hsh]
          exact hv
        have hrest := ih st' hv' hsp.1 hsp.2.1
        dsimp only
        refine ⟨?_, hrest.2.1, hrest.2.2⟩
        intro snap hsnap
        rcases List.mem_append.mp hsnap with hm | hm
        · exact hsp.2.2 snap hm
        · exact hrest.1 snap hm
    · exact ⟨by simp, hcur, hbest⟩

/-- C1: starting from an assignment produced by `initialize_teams`, every
snapshot the optimizer yields — the initial one, every per-iteration one and
the final best-state one — partitions exactly the original pool: the
concatenation of its teams is a permutation of the pool, so each participant
appears in exactly one team with no duplicates and no omissions. -/
theorem C1_partition_invariant (pool shuffled : List Participant)
    (team_size : ℕ) (rr : List (String × ℕ)) (lr : Bool)
    (fts max_iter : ℕ) (initial_temp cooling_rate : ℚ)
    (oracle : ℕ → Decision) (hS : 0 < team_size)
    (hperm : pool.Perm shuffled)
    (hv : ∀ k, ValidDecision (oracle k)
      ((initialize_teams shuffled team_size).map List.length)) :
    ∀ snap ∈ (optimize_teams_sa_anim (initialize_teams shuffled team_size)
        rr lr fts max_iter initial_temp cooling_rate oracle).snaps,
      snap.teams.flatten.Perm pool := by
  obtain ⟨s, rfl⟩ : ∃ s, team_size = s + 1 := ⟨team_size - 1, by omega⟩
  have hp0 : (initialize_teams shuffled (s+1)).flatten.Perm pool := by
    rw [show initialize_teams shuffled (s+1) = sliceChunks (s+1) shuffled
      from rfl, sliceChunks_flatten s shuffled]
    exact hperm.symm
  have hloop := saLoopAux_perm pool rr lr fts max_iter cooling_rate oracle
    max_iter
    { current_teams := initialize_teams shuffled (s+1)
      current_obj := overall_team_avg_variance (initialize_teams shuffled (s+1))
      best_state := initialize_teams shuffled (s+1)
      best_obj := overall_team_avg_variance (initialize_teams shuffled (s+1))
      T := initial_temp, iteration := 0 }
    hv hp0 hp0
  unfold optimize_teams_sa_anim
  dsimp only
  split
  · intro snap hsnap
    rcases List.mem_cons.mp hsnap with rfl | hm
    · exact hp0
    · exact hloop.1 snap hm
  · intro snap hsnap
    rcases List.mem_cons.mp hsnap with rfl | hm
    · exact hp0
    · rcases List.mem_append.mp hm with hm | hm
      · exact hloop.1 snap hm
      · rcases List.mem_singleton.mp hm with rfl
        exact hloop.2.2

/-- A two-participant pool for concrete runs. -/
def c1Pool : List Participant :=
  [Participant.make "a" "1" "X" 0 0 0 0 0 0 "" false [],
   Participant.make "b" "2" "Y" 0 0 0 0 0 0 "" true []]

/-- A constant decision oracle: always swap member 0 of team 0 with member 0
of team 1, accepting on the Metropolis coin. -/
def c1Oracle : ℕ → Decision := fun _ => ⟨0, 1, 0, 0, true⟩

/-- C1 witness: the partition invariant instantiated on a concrete two-team
run (pool of two, team size 1, one iteration). -/
theorem C1_partition_invariant_witness :
    (0 < 1 ∧ c1Pool.Perm c1Pool ∧
      (∀ k, ValidDecision (c1Oracle k)
        ((initialize_teams c1Pool 1).map List.length))) ∧
    (∀ snap ∈ (optimize_teams_sa_anim (initialize_teams c1Pool 1)
        [] false 1 1 1 (995/1000) c1Oracle).snaps,
      snap.teams.flatten.Perm c1Pool) := by
  have hshape : (initialize_teams c1Pool 1).map List.length = [1, 1] := by
    simp [initialize_teams, sliceChunks, c1Pool]
  have hval : ∀ k, ValidDecision (c1Oracle k)
      ((initialize_teams c1Pool 1).map List.length) := by
    intro k
    rw [hshape]
    unfold ValidDecision
    right
    refine ⟨by simp [c1Oracle], by simp [c1Oracle], by simp [c1Oracle], ?_⟩
    intro _ _
    constructor <;> simp [c1Oracle]
  exact ⟨⟨by omega, List.Perm.refl _, hval⟩,
    C1_partition_invariant c1Pool c1Pool 1 [] false 1 1 1 (995/1000) c1Oracle
      (by omega) (List.Perm.refl _) hval⟩

/-! ### Legality preservation -/

/-- A successful step keeps every team of the current assignment, the best
assignment, and every yielded snapshot passing the validator, provided they
all passed before: a swap is only committed after both candidate teams pass. -/
lemma saStep_meets (rr : List (String × ℕ)) (lr : Bool) (fts : ℕ) (cr : ℚ)
    (st : SAState) (d : Decision) (st' : SAState) (osnap : Option Snapshot)
    (h : saStep rr lr fts cr st d = .ok (st', osnap))
    (hcur : ∀ t ∈ st.current_teams, meets_role_requirements t rr lr fts = true)
    (hbest : ∀ t ∈ st.best_state, meets_role_requirements t rr lr fts = true) :
    (∀ t ∈ st'.current_teams, meets_role_requirements t rr lr fts = true) ∧
    (∀ t ∈ st'.best_state, meets_role_requirements t rr lr fts = true) ∧
    (∀ snap ∈ osnap.toList, ∀ t ∈ snap.teams,
      meets_role_requirements t rr lr fts = true) := by
  obtain ⟨hlen, _, hcase⟩ := saStep_spec rr lr fts cr st d st' osnap h
  rcases hcase with ⟨_, hteams, hbest', _, hnone⟩ | ⟨hemp, _, hsnap, hcase⟩
  · rw [hteams, hbest', hnone]
    exact ⟨hcur, hbest, by simp⟩
  · have hcur' : ∀ t ∈ st'.current_teams,
        meets_role_requirements t rr lr fts = true := by
      rcases hcase with ⟨hteams, _⟩ | ⟨hteams, hm1, hm2, _⟩
      · rw [hteams]
        exact hcur
      · rw [hteams]
        intro t ht
        rcases List.mem_or_eq_of_mem_set ht with ht | rfl
        · rcases List.mem_or_eq_of_mem_set ht with ht | rfl
          · exact hcur t ht
          · exact hm1
        · exact hm2
    have hbest'' : ∀ t ∈ st'.best_state,
        meets_role_requirements t rr lr fts = true := by
      rcases hcase with ⟨_, hb⟩ | ⟨_, _, _, hb⟩
      · rw [hb]
        exact hbest
      · rcases hb with hb | hb
        · rw [hb]
          exact hbest
        · rw [hb]
          exact hcur'
    refine ⟨hcur', hbest'', ?_⟩
    obtain ⟨snap, hs, _, _, hteams⟩ := hsnap
    rw [hs]
    intro s hsm
    rcases List.mem_cons.mp hsm with rfl | hfalse
    · rw [hteams]
      exact hcur'
    · exact absurd hfalse (by simp)

/-- Legality is preserved across the whole loop. -/
lemma saLoopAux_meets (rr : List (String × ℕ)) (lr : Bool)
    (fts max_iter : ℕ) (cr : ℚ) (oracle : ℕ → Decision) :
    ∀ (fuel : ℕ) (st : SAState),
      (∀ t ∈ st.current_teams, meets_role_requirements t rr lr fts = true) →
      (∀ t ∈ st.best_state, meets_role_requirements t rr lr fts = true) →
      (∀ snap ∈ (saLoopAux rr lr fts max_iter cr oracle st fuel).1,
        ∀ t ∈ snap.teams, meets_role_requirements t rr lr fts = true) ∧
      (∀ t ∈ (saLoopAux rr lr fts max_iter cr oracle st fuel).2.1.current_teams,
        meets_role_requirements t rr lr fts = true) ∧
      (∀ t ∈ (saLoopAux rr lr fts max_iter cr oracle st fuel).2.1.best_state,
        meets_role_requirements t rr lr fts = true) := by
  intro fuel
  induction fuel with
  | zero =>
    intro st hcur hbest
    simp only [saLoopAux]
    exact ⟨by simp, hcur, hbest⟩
  | succ fuel ih =>
    intro st hcur hbest
    simp only [saLoopAux]
    split
    · cases hstep : saStep rr lr fts cr st (oracle st.iteration) with
      | error e =>
        dsimp only
        exact ⟨by simp, hcur, hbest⟩
      | ok pr =>
        obtain ⟨st', osnap⟩ := pr
        have hsm := saStep_meets rr lr fts cr st (oracle st.iteration)
          st' osnap hstep hcur hbest
        have hrest := ih st' hsm.1 hsm.2.1
        dsimp only
        refine ⟨?_, hrest.2.1, hrest.2.2⟩
        intro snap hsnap
        rcases List.mem_append.mp hsnap with hm | hm
        · exact hsm.2.2 snap hm
        · exact hrest.1 snap hm
    · exact ⟨by simp, hcur, hbest⟩

/-- Two participants who both report the role "AI Engineer". -/
def c2Pool : List Participant :=
  [Participant.make "a" "1" "AI Engineer" 0 0 0 0 0 0 "" true [],
   Participant.make "b" "2" "AI Engineer" 0 0 0 0 0 0 "" true []]

/-- The spec's example requirements: one AI Engineer and one Design member. -/
def c2RR : List (String × ℕ) := [("AI Engineer", 1), ("Design", 1)]

/-- C2 counterexample: the initializer never checks legality, so the very
first snapshot of a run whose random partition is illegal already contains a
full-size team that fails the validator — with a pool of two AI Engineers,
requirements {AI Engineer: 1, Design: 1} and team size 2, the initial
snapshot's only team has full size 2 and fails `meets_role_requirements`. -/
theorem C2_legality_cex :
    ((optimize_teams_sa_anim (initialize_teams c2Pool 2) c2RR true 2 0 1
        (995/1000) c1Oracle).snaps.headD
        ⟨[], 0, 0, none, none, none, none, false⟩).teams = [c2Pool] ∧
    c2Pool.length = 2 ∧
    meets_role_requirements c2Pool c2RR true 2 = false := by
  refine ⟨?_, rfl, by decide⟩
  have hinit : initialize_teams c2Pool 2 = [c2Pool] := by
    simp [initialize_teams, sliceChunks, c2Pool]
  rw [hinit]
  simp only [optimize_teams_sa_anim, saLoopAux]
  rfl

/-- C2 amended: the legality invariant holds for every snapshot provided it
holds for the initial assignment: if every team of the starting partition
passes the validator (in particular every full-size team satisfies the role
minimums and, if required, has a leadership-willing member), then every team
of every yielded snapshot — per-iteration and final best-state alike — passes
it, because a swap is committed only when both modified teams pass and team
sizes never change.  The unamended claim fails on the initial random
partition, which is never checked. -/
theorem C2_legality_amended (teams : List (List Participant))
    (rr : List (String × ℕ)) (lr : Bool) (fts max_iter : ℕ)
    (initial_temp cooling_rate : ℚ) (oracle : ℕ → Decision)
    (hinit : ∀ t ∈ teams, meets_role_requirements t rr lr fts = true) :
    ∀ snap ∈ (optimize_teams_sa_anim teams rr lr fts max_iter initial_temp
        cooling_rate oracle).snaps,
      ∀ t ∈ snap.teams, meets_role_requirements t rr lr fts = true := by
  have hloop := saLoopAux_meets rr lr fts max_iter cooling_rate oracle max_iter
    { current_teams := teams
      current_obj := overall_team_avg_variance teams
      best_state := teams
      best_obj := overall_team_avg_variance teams
      T := initial_temp, iteration := 0 }
    hinit hinit
  unfold optimize_teams_sa_anim
  dsimp only
  split
  · intro snap hsnap
    rcases List.mem_cons.mp hsnap with rfl | hm
    · exact hinit
    · exact hloop.1 snap hm
  · intro snap hsnap
    rcases List.mem_cons.mp hsnap with rfl | hm
    · exact hinit
    · rcases List.mem_append.mp hm with hm | hm
      · exact hloop.1 snap hm
      · rcases List.mem_singleton.mp hm with rfl
        exact hloop.2.2

/-- C2 amended witness: a concrete legal two-team run (empty requirements, no
leader needed) keeps every snapshot legal. -/
theorem C2_legality_amended_witness :
    (∀ t ∈ initialize_teams c1Pool 1,
      meets_role_requirements t [] false 1 = true) ∧
    (∀ snap ∈ (optimize_teams_sa_anim (initialize_teams c1Pool 1) [] false 1 1
        1 (995/1000) c1Oracle).snaps,
      ∀ t ∈ snap.teams, meets_role_requirements t [] false 1 = true) := by
  have hinit : ∀ t ∈ initialize_teams c1Pool 1,
      meets_role_requirements t [] false 1 = true := by
    have h : initialize_teams c1Pool 1 =
        [[Participant.make "a" "1" "X" 0 0 0 0 0 0 "" false []],
         [Participant.make "b" "2" "Y" 0 0 0 0 0 0 "" true []]] := by
      simp [initialize_teams, sliceChunks, c1Pool]
    rw [h]
    intro t ht
    rcases List.mem_cons.mp ht with rfl | ht
    · decide
    · rcases List.mem_cons.mp ht with rfl | ht
      · decide
      · exact absurd ht (by simp)
  exact ⟨hinit, C2_legality_amended (initialize_teams c1Pool 1) [] false 1 1 1
    (995/1000) c1Oracle hinit⟩

/-- An assignment containing an empty team, reaching the `continue` branch of
the loop (only reachable when the optimizer is handed such an assignment
directly: `initialize_teams` never produces empty teams). -/
def c3Teams : List (List Participant) :=
  [[Participant.make "a" "1" "X" 0 0 0 0 0 0 "" false []], []]

/-- C3 counterexample: when the no-op branch is taken (one selected team is
empty), the iteration is counted (`iteration += 1` precedes the emptiness
check) but the `continue` skips both the cooling and the yield: after a
one-iteration run over `[[a], []]`, the final temperature is still 1 — not
1 · 0.995 — and the only snapshots are the initial one and the final
completion one, so no per-iteration snapshot was emitted for iteration 1. -/
theorem C3_no_op_cooling_cex :
    (optimize_teams_sa_anim c3Teams [] false 1 1 1 (995/1000)
      c1Oracle).final.iteration = 1 ∧
    (optimize_teams_sa_anim c3Teams [] false 1 1 1 (995/1000)
      c1Oracle).final.T = 1 ∧
    (1 : ℚ) ≠ 1 * (995/1000) ∧
    (optimize_teams_sa_anim c3Teams [] false 1 1 1 (995/1000)
        c1Oracle).snaps.map (fun s => (s.iteration, s.complete)) =
      [(0, false), (1, true)] := by
  have hloop : saLoopAux [] false 1 1 (995/1000) c1Oracle
      ⟨c3Teams, overall_team_avg_variance c3Teams, c3Teams,
        overall_team_avg_variance c3Teams, 1, 0⟩ 1 =
      ([], ⟨c3Teams, overall_team_avg_variance c3Teams, c3Teams,
        overall_team_avg_variance c3Teams, 1, 1⟩, false) := by
    simp only [saLoopAux]
    rw [if_pos (by norm_num)]
    have hstep : saStep [] false 1 (995/1000)
        ⟨c3Teams, overall_team_avg_variance c3Teams, c3Teams,
          overall_team_avg_variance c3Teams, 1, 0⟩ (c1Oracle 0) =
        .ok (⟨c3Teams, overall_team_avg_variance c3Teams, c3Teams,
          overall_team_avg_variance c3Teams, 1, 1⟩, none) := rfl
    rw [hstep]
    simp only [saLoopAux]
    rfl
  unfold optimize_teams_sa_anim
  dsimp only
  rw [hloop]
  exact ⟨rfl, rfl, by norm_num, rfl⟩

/-- C3 amended: on every counted iteration the counter increases by one, but
the two sides of the claim hold only off the no-op branch: when both selected
teams are non-empty the temperature is multiplied by the cooling rate exactly
once and exactly one (non-final) snapshot is emitted for that iteration,
whereas when one of the selected teams is empty the iteration is still
counted but the temperature is NOT cooled and NO snapshot is emitted. -/
theorem C3_cooling_and_emission_amended (rr : List (String × ℕ)) (lr : Bool)
    (fts : ℕ) (cr : ℚ) (st : SAState) (d : Decision) (st' : SAState)
    (osnap : Option Snapshot)
    (h : saStep rr lr fts cr st d = .ok (st', osnap)) :
    st'.iteration = st.iteration + 1 ∧
    (((st.current_teams.getD d.i []).isEmpty ||
        (st.current_teams.getD d.j []).isEmpty) = true →
      st'.T = st.T ∧ osnap = none) ∧
    (((st.current_teams.getD d.i []).isEmpty ||
        (st.current_teams.getD d.j []).isEmpty) = false →
      st'.T = st.T * cr ∧
      ∃ snap, osnap = some snap ∧ snap.iteration = st.iteration + 1 ∧
        snap.complete = false) := by
  obtain ⟨_, hiter, hcase⟩ := saStep_spec rr lr fts cr st d st' osnap h
  rcases hcase with ⟨hemp, _, _, hT, hnone⟩ | ⟨hemp, hT, hsnap, _⟩
  · refine ⟨hiter, fun _ => ⟨hT, hnone⟩, fun hc => ?_⟩
    rw [hemp] at hc
    exact absurd hc (by simp)
  · refine ⟨hiter, fun hc => ?_, fun _ => ⟨hT, ?_⟩⟩
    · rw [hemp] at hc
      exact absurd hc (by simp)
    · obtain ⟨snap, hs, hi, hcmp, _⟩ := hsnap
      exact ⟨snap, hs, hi, hcmp⟩

/-- C3 amended witness: the no-op branch on a concrete state — the step
succeeds, counts the iteration, and the conclusion instantiates. -/
theorem C3_cooling_and_emission_amended_witness :
    (saStep [] false 1 (995/1000)
        ⟨c3Teams, 0, c3Teams, 0, 1, 0⟩ ⟨0, 1, 0, 0, true⟩ =
      .ok (⟨c3Teams, 0, c3Teams, 0, 1, 1⟩, none)) ∧
    ((⟨c3Teams, 0, c3Teams, 0, 1, 1⟩ : SAState).iteration =
      (⟨c3Teams, 0, c3Teams, 0, 1, 0⟩ : SAState).iteration + 1 ∧
    ((((⟨c3Teams, 0, c3Teams, 0, 1, 0⟩ : SAState).current_teams.getD 0 []).isEmpty ||
        (((⟨c3Teams, 0, c3Teams, 0, 1, 0⟩ : SAState).current_teams.getD 1 []).isEmpty)) = true →
      (⟨c3Teams, 0, c3Teams, 0, 1, 1⟩ : SAState).T =
        (⟨c3Teams, 0, c3Teams, 0, 1, 0⟩ : SAState).T ∧
      (none : Option Snapshot) = none) ∧
    ((((⟨c3Teams, 0, c3Teams, 0, 1, 0⟩ : SAState).current_teams.getD 0 []).isEmpty ||
        (((⟨c3Teams, 0, c3Teams, 0, 1, 0⟩ : SAState).current_teams.getD 1 []).isEmpty)) = false →
      (⟨c3Teams, 0, c3Teams, 0, 1, 1⟩ : SAState).T =
        (⟨c3Teams, 0, c3Teams, 0, 1, 0⟩ : SAState).T * (995/1000) ∧
      ∃ snap, (none : Option Snapshot) = some snap ∧
        snap.iteration = (⟨c3Teams, 0, c3Teams, 0, 1, 0⟩ : SAState).iteration + 1 ∧
        snap.complete = false)) :=
  ⟨rfl, C3_cooling_and_emission_amended [] false 1 (995/1000)
    ⟨c3Teams, 0, c3Teams, 0, 1, 0⟩ ⟨0, 1, 0, 0, true⟩
    ⟨c3Teams, 0, c3Teams, 0, 1, 1⟩ none rfl⟩

/-- A one-participant pool: `initialize_teams` makes exactly one team. -/
def c4Pool : List Participant :=
  [Participant.make "a" "1" "X" 0 0 0 0 0 0 "" false []]

/-- C4 counterexample: on a run whose initial assignment is a single team
(with the default cap 10000 and temperature 1, above the floor), the
optimizer crashes on the first loop iteration — `random.sample(range(1), 2)`
cannot draw two distinct teams and raises — instead of terminating cleanly at
iteration 0: the run is flagged crashed and only the initial snapshot was
emitted, with no completion snapshot. -/
theorem C4_one_team_crash_cex :
    (optimize_teams_sa_anim (initialize_teams c4Pool 1) [] false 1 10000 1
      (995/1000) c1Oracle).crashed = true ∧
    (optimize_teams_sa_anim (initialize_teams c4Pool 1) [] false 1 10000 1
        (995/1000) c1Oracle).snaps.map (fun s => s.complete) = [false] := by
  have hinit : initialize_teams c4Pool 1 = [c4Pool] := by
    simp [initialize_teams, sliceChunks, c4Pool]
  rw [hinit]
  have hstep : saStep [] false 1 (995/1000)
      ⟨[c4Pool], overall_team_avg_variance [c4Pool], [c4Pool],
        overall_team_avg_variance [c4Pool], 1, 0⟩ (c1Oracle 0) =
      .error () := rfl
  have hloop : ∀ k : ℕ, saLoopAux [] false 1 (k+1) (995/1000) c1Oracle
      ⟨[c4Pool], overall_team_avg_variance [c4Pool], [c4Pool],
        overall_team_avg_variance [c4Pool], 1, 0⟩ (k+1) =
      ([], ⟨[c4Pool], overall_team_avg_variance [c4Pool], [c4Pool],
        overall_team_avg_variance [c4Pool], 1, 0⟩, true) := by
    intro k
    simp only [saLoopAux]
    rw [if_pos ⟨by norm_num, by omega⟩, hstep]
  unfold optimize_teams_sa_anim
  dsimp only
  have h10000 : (10000 : ℕ) = 9999 + 1 := rfl
  rw [h10000, hloop 9999]
  exact ⟨rfl, rfl⟩

/-- C4 amended: a run whose assignment has fewer than two teams (in
particular exactly one) and whose starting temperature is above the floor,
with a positive iteration cap, does not terminate cleanly at iteration 0: the
first loop iteration raises from `random.sample(range(n), 2)` (n < 2), the
run is flagged crashed, and only the initial snapshot is emitted — the state
is never mutated, but a fatal error path is reachable on this valid input. -/
theorem C4_one_team_crash_amended (teams : List (List Participant))
    (rr : List (String × ℕ)) (lr : Bool) (fts max_iter : ℕ)
    (initial_temp cooling_rate : ℚ) (oracle : ℕ → Decision)
    (hone : teams.length < 2) (htemp : 1/10000 < initial_temp)
    (hiter : 0 < max_iter) :
    (optimize_teams_sa_anim teams rr lr fts max_iter initial_temp cooling_rate
      oracle).crashed = true ∧
    (optimize_teams_sa_anim teams rr lr fts max_iter initial_temp cooling_rate
        oracle).snaps =
      [⟨teams, overall_team_avg_variance teams, 0, none, none, none, none,
        false⟩] := by
  obtain ⟨k, rfl⟩ : ∃ k, max_iter = k + 1 := ⟨max_iter - 1, by omega⟩
  have hstep : saStep rr lr fts cooling_rate
      ⟨teams, overall_team_avg_variance teams, teams,
        overall_team_avg_variance teams, initial_temp, 0⟩ (oracle 0) =
      .error () := by
    unfold saStep
    rw [if_pos hone]
  have hloop : saLoopAux rr lr fts (k+1) cooling_rate oracle
      ⟨teams, overall_team_avg_variance teams, teams,
        overall_team_avg_variance teams, initial_temp, 0⟩ (k+1) =
      ([], ⟨teams, overall_team_avg_variance teams, teams,
        overall_team_avg_variance teams, initial_temp, 0⟩, true) := by
    simp only [saLoopAux]
    rw [if_pos ⟨htemp, by omega⟩, hstep]
  unfold optimize_teams_sa_anim
  dsimp only
  rw [hloop]
  exact ⟨rfl, rfl⟩

/-- C4 amended witness: instantiated on the concrete one-team run. -/
theorem C4_one_team_crash_amended_witness :
    (([[Participant.make "a" "1" "X" 0 0 0 0 0 0 "" false []]] :
        List (List Participant)).length < 2 ∧
      (1 : ℚ)/10000 < 1 ∧ 0 < 10000) ∧
    (optimize_teams_sa_anim
      [[Participant.make "a" "1" "X" 0 0 0 0 0 0 "" false []]] [] false 1
      10000 1 (995/1000) c1Oracle).crashed = true ∧
    (optimize_teams_sa_anim
        [[Participant.make "a" "1" "X" 0 0 0 0 0 0 "" false []]] [] false 1
        10000 1 (995/1000) c1Oracle).snaps =
      [⟨[[Participant.make "a" "1" "X" 0 0 0 0 0 0 "" false []]],
        overall_team_avg_variance
          [[Participant.make "a" "1" "X" 0 0 0 0 0 0 "" false []]],
        0, none, none, none, none, false⟩] :=
  ⟨⟨by simp, by norm_num, by omega⟩,
   C4_one_team_crash_amended
     [[Participant.make "a" "1" "X" 0 0 0 0 0 0 "" false []]] [] false 1
     10000 1 (995/1000) c1Oracle (by simp) (by norm_num) (by omega)⟩
